import Mathlib

/-!
Verification of the OpenStack cluster-destroy engine
(`pkg/destroy/openstack/openstack.go`).

The Go source is shallowly embedded: Go maps become association lists,
provider API calls become oracle functions passed in an environment
record, and each per-kind deletion task becomes a pure Lean function
returning the Go `(bool, error)` pair together with, where the property
needs it, the trace of provider calls it issues.
-/

set_option maxRecDepth 4096

namespace OpenStackDestroy

/-- Outcome of a single provider Delete/Update call, abstracting the
HTTP response classes the Go code distinguishes with
`gophercloud.ResponseCodeIs` (404 not-found, 409 conflict, anything else). -/
inductive ApiResult where
  | ok
  | notFound
  | conflict
  | otherError
  deriving DecidableEq, Repr

/-- `Filter` from the source: `map[string]string` of tag key/value pairs,
embedded as an association list with unique keys. -/
abbrev Filter := List (String × String)

/-- `ObjectWithTags` from the source: ID plus a tag map. -/
structure ObjectWithTags where
  id : String
  tags : List (String × String)
  deriving DecidableEq, Repr

/-- `filterObjects` from the source (two passes: first keep objects that
have every filter key, then keep those whose values all match; the second
pass reads the tag map with Go's zero-value indexing). -/
def filterObjects (osObjects : List ObjectWithTags) (filters : Filter) :
    List ObjectWithTags :=
  let objectsWithTags := osObjects.filter fun object =>
    filters.all fun kv => (object.tags.lookup kv.1).isSome
  let filteredObjects := objectsWithTags.filter fun object =>
    filters.all fun kv => ((object.tags.lookup kv.1).getD "") == kv.2
  filteredObjects

/-- Spec-side matching predicate, written from the spec's words: the
object's tags contain every key of the filter with an exactly equal
value. Used to compare against the source-derived `filterObjects`. -/
def matchesFilterSpec (filters : Filter) (object : ObjectWithTags) : Bool :=
  filters.all fun kv => object.tags.lookup kv.1 == some kv.2

lemma all_and_distrib (l : List α) (f g : α → Bool) :
    (l.all f && l.all g) = l.all fun x => f x && g x := by
  induction l with
  | nil => rfl
  | cons a l ih =>
    simp only [List.all_cons, ← ih]
    cases f a <;> cases g a <;> cases l.all f <;> cases l.all g <;> rfl

lemma present_and_value_eq (tags : List (String × String)) (k v : String) :
    ((tags.lookup k).isSome && ((tags.lookup k).getD "") == v)
      = (tags.lookup k == some v) := by
  cases h : tags.lookup k with
  | none => rfl
  | some w => simp [Option.getD]

/-- Core lemma shared by the `filterObjects` claims: the two-pass
client-side filter equals a single filter by the spec-side predicate. -/
lemma filterObjects_eq_filter (osObjects : List ObjectWithTags) (filters : Filter) :
    filterObjects osObjects filters = osObjects.filter (matchesFilterSpec filters) := by
  unfold filterObjects matchesFilterSpec
  dsimp only
  rw [List.filter_filter]
  apply List.filter_congr
  intro o _
  rw [Bool.and_comm, all_and_distrib]
  congr 1
  funext kv
  exact present_and_value_eq o.tags kv.1 kv.2

/-- C1: for every list of `ObjectWithTags` and every `Filter`,
`filterObjects` returns exactly the subset of input objects whose tags
contain every key of the filter with an exactly equal value: an object
missing any filter key does not match, an object with a differing value
for any filter key does not match, and an object whose tags are a strict
superset of the filter matches. -/
theorem filterObjects_exact_subset (osObjects : List ObjectWithTags) (filters : Filter) :
    filterObjects osObjects filters = osObjects.filter (matchesFilterSpec filters)
      ∧ ∀ o, o ∈ filterObjects osObjects filters ↔
          o ∈ osObjects ∧ ∀ kv ∈ filters, o.tags.lookup kv.1 = some kv.2 := by
  refine ⟨filterObjects_eq_filter osObjects filters, fun o => ?_⟩
  rw [filterObjects_eq_filter, List.mem_filter, matchesFilterSpec]
  simp [List.all_eq_true]

/-- C10: `filterObjects` applied with the empty filter returns every
object of the input list, in input order. -/
theorem filterObjects_empty_filter (osObjects : List ObjectWithTags) :
    filterObjects osObjects [] = osObjects := by
  rw [filterObjects_eq_filter]
  apply List.filter_eq_self.mpr
  intro o _
  rfl

/-! ## Cluster-ID extraction and name-prefix tasks
(`deleteServerGroups`, `deleteServers`, `deleteVolumes`) -/

/-- Go `strings.HasPrefix(s, pre)`, on the underlying character lists. -/
def goHasPrefix (s pre : String) : Bool := pre.data.isPrefixOf s.data

/-- Go `strings.ToLower` restricted to ASCII, which is all the source
applies it to (the literal tag key "openshiftclusterid"). -/
def goToLower (s : String) : String := String.mk (s.data.map Char.toLower)

/-- The cluster-ID lookup shared by `deleteServerGroups`, `deleteVolumes`,
`deleteVolumeSnapshots` and `deleteShares`: iterate the filter map and take
the first key equal to "openshiftclusterid" under `strings.ToLower`; the
Go zero value "" remains when no key matches. -/
def extractClusterID (filter : Filter) : String :=
  match filter.find? (fun kv => goToLower kv.1 == "openshiftclusterid") with
  | some kv => kv.2
  | none => ""

lemma goHasPrefix_empty (s : String) : goHasPrefix s "" = true := by
  unfold goHasPrefix
  rw [show ("" : String).data = [] from rfl]
  exact List.isPrefixOf_nil_left

structure ServerGroup where
  id : String
  name : String
  deriving DecidableEq, Repr

/-- Candidate selection of `deleteServerGroups`: all groups whose name has
the cluster ID as a prefix. -/
def serverGroupCandidates (filter : Filter) (allServerGroups : List ServerGroup) :
    List ServerGroup :=
  allServerGroups.filter fun g => goHasPrefix g.name (extractClusterID filter)

/-- The delete-counting loop of `deleteServerGroups` (source lines
306-321): the response-code check there lacks the negation used by every
sibling task, so a 404 response skips the increment while any other
delete error falls through to it. -/
def serverGroupsDeletedCount (del : String → ApiResult) (groups : List ServerGroup) : Nat :=
  groups.foldl (fun n g =>
    match del g.id with
    | .notFound => n
    | _ => n + 1) 0

/-- `deleteServerGroups`, given the listed groups and a delete oracle. -/
def deleteServerGroupsTask (filter : Filter) (allServerGroups : List ServerGroup)
    (del : String → ApiResult) : Bool × Option String :=
  let filteredGroups := serverGroupCandidates filter allServerGroups
  (serverGroupsDeletedCount del filteredGroups == filteredGroups.length, none)

/-- The delete-counting loop of `deleteServers` (source lines 248-262):
ok and 404 count as deleted, any other error skips the increment. -/
def serversDeletedCount (del : String → ApiResult) (servers : List ObjectWithTags) : Nat :=
  servers.foldl (fun n s =>
    match del s.id with
    | .ok => n + 1
    | .notFound => n + 1
    | _ => n) 0

/-- `deleteServers`, given the listed servers and a delete oracle. -/
def deleteServersTask (filter : Filter) (allServers : List ObjectWithTags)
    (del : String → ApiResult) : Bool × Option String :=
  let filteredServers := filterObjects allServers filter
  (serversDeletedCount del filteredServers == filteredServers.length, none)

def cinderCSIClusterIDKey : String := "cinder.csi.openstack.org/cluster"

structure Volume where
  id : String
  name : String
  metadata : List (String × String)
  deriving DecidableEq, Repr

/-- Per-volume candidate accumulation of `deleteVolumes` (source lines
1386-1398): append on cluster-ID name prefix, append again on CSI
metadata match. -/
def volumeStep (clusterID : String) (volumeIDs : List String) (volume : Volume) :
    List String :=
  let volumeIDs :=
    if goHasPrefix volume.name clusterID then volumeIDs ++ [volume.id] else volumeIDs
  if volume.metadata.lookup cinderCSIClusterIDKey == some clusterID then
    volumeIDs ++ [volume.id]
  else volumeIDs

/-- Candidate volume IDs of `deleteVolumes`. -/
def volumeCandidateIDs (filter : Filter) (allVolumes : List Volume) : List String :=
  allVolumes.foldl (volumeStep (extractClusterID filter)) []

lemma volumeStep_mem_mono (clusterID : String) (acc : List String) (v : Volume)
    (a : String) (h : a ∈ acc) : a ∈ volumeStep clusterID acc v := by
  unfold volumeStep
  dsimp only
  split <;> split <;> simp_all

lemma volumeFold_mem_mono (clusterID : String) (vols : List Volume) :
    ∀ (acc : List String) (a : String), a ∈ acc →
      a ∈ vols.foldl (volumeStep clusterID) acc := by
  induction vols with
  | nil => intro acc a h; simpa using h
  | cons v vols ih =>
    intro acc a h
    exact ih (volumeStep clusterID acc v) a (volumeStep_mem_mono clusterID acc v a h)

lemma volumeFold_mem_of_prefix (vols : List Volume) :
    ∀ (acc : List String) (v : Volume), v ∈ vols →
      v.id ∈ vols.foldl (volumeStep "") acc := by
  induction vols with
  | nil => intro _ _ h; cases h
  | cons u vols ih =>
    intro acc v hv
    rcases List.mem_cons.mp hv with h | h
    · subst h
      apply volumeFold_mem_mono "" vols (volumeStep "" acc v) v.id
      unfold volumeStep
      rw [goHasPrefix_empty]
      dsimp only
      split <;> simp
    · exact ih (volumeStep "" acc u) v h

/-- C9: if the filter holds no key equal to "openshiftclusterid" under
case-insensitive comparison, the extracted cluster ID is the empty
string, so `deleteServerGroups` selects every listed server group and
`deleteVolumes` selects every listed volume as a deletion candidate. -/
theorem no_cluster_id_key_selects_all (filter : Filter)
    (h : ∀ kv ∈ filter, goToLower kv.1 ≠ "openshiftclusterid")
    (allServerGroups : List ServerGroup) (allVolumes : List Volume) :
    extractClusterID filter = ""
      ∧ serverGroupCandidates filter allServerGroups = allServerGroups
      ∧ ∀ v ∈ allVolumes, v.id ∈ volumeCandidateIDs filter allVolumes := by
  have hid : extractClusterID filter = "" := by
    unfold extractClusterID
    rw [List.find?_eq_none.mpr]
    intro kv hkv
    simpa using h kv hkv
  refine ⟨hid, ?_, ?_⟩
  · unfold serverGroupCandidates
    rw [hid]
    apply List.filter_eq_self.mpr
    intro g _
    exact goHasPrefix_empty g.name
  · intro v hv
    unfold volumeCandidateIDs
    rw [hid]
    exact volumeFold_mem_of_prefix allVolumes [] v hv

/-- Witness for C9 at a concrete filter without the cluster-ID key. -/
theorem no_cluster_id_key_selects_all_witness :
    extractClusterID [("foo", "bar")] = ""
      ∧ serverGroupCandidates [("foo", "bar")] [⟨"sg1", "anything"⟩] = [⟨"sg1", "anything"⟩]
      ∧ ∀ v ∈ [(⟨"v1", "n1", []⟩ : Volume)],
          v.id ∈ volumeCandidateIDs [("foo", "bar")] [⟨"v1", "n1", []⟩] :=
  no_cluster_id_key_selects_all [("foo", "bar")] (by decide)
    [⟨"sg1", "anything"⟩] [⟨"v1", "n1", []⟩]

/-- C3 (code bug): at a server group whose delete returns 404 the
`deleteServerGroups` loop skips the increment and reports `(false, nil)`
(endless retry), while an unrecognized delete error is counted as
success; the sibling `deleteServers` loop shows the intended behavior on
the same inputs. -/
theorem deleteServerGroups_notFound_divergence :
    deleteServerGroupsTask [("openshiftClusterID", "abc")]
        [⟨"sg1", "abc-group"⟩] (fun _ => .notFound) = (false, none)
      ∧ deleteServerGroupsTask [("openshiftClusterID", "abc")]
        [⟨"sg1", "abc-group"⟩] (fun _ => .otherError) = (true, none)
      ∧ deleteServersTask [("openshiftClusterID", "abc")]
        [⟨"srv1", [("openshiftClusterID", "abc")]⟩] (fun _ => .notFound) = (true, none)
      ∧ deleteServersTask [("openshiftClusterID", "abc")]
        [⟨"srv1", [("openshiftClusterID", "abc")]⟩] (fun _ => .otherError) = (false, none) := by
  decide

/-! ## Primary-network untagging (`untagPrimaryNetwork`, `untagRunner`) -/

/-- The error `untagPrimaryNetwork` returns on an ambiguous match
("more than one network with tag ..."). -/
inductive UntagError where
  | multipleNetworks (count : Nat)
  deriving DecidableEq, Repr

/-- Environment of one `untagPrimaryNetwork` attempt: the network listing
by the `<infraID>-primaryClusterNetwork` tag (an error stands for a failed
client build, list or extract call, each of which the source turns into
`(false, nil)`), and the result of the `attributestags.Delete` call per
network ID. -/
structure UntagEnv where
  listNetworks : Except Unit (List String)
  tagDelete : String → ApiResult

/-- `untagPrimaryNetwork` (source lines 1714-1757): more than one listed
network is a real error; zero is success; on exactly one the tag-delete
call is made and any error from it yields `(false, nil)`. -/
def untagPrimaryNetwork (env : UntagEnv) : Bool × Option UntagError :=
  match env.listNetworks with
  | .error _ => (false, none)
  | .ok allNetworks =>
    if 1 < allNetworks.length then
      (false, some (.multipleNetworks allNetworks.length))
    else
      match allNetworks with
      | [] => (true, none)
      | n :: _ =>
        match env.tagDelete n with
        | .ok => (true, none)
        | _ => (false, none)

inductive BackoffResult (E : Type) where
  | success
  | timeout
  | aborted (e : E)
  deriving DecidableEq, Repr

/-- Modelled from the spec: the generic exponential-backoff primitive
(`wait.ExponentialBackoff`), an external library declared out of scope in
§1 with its contract in §4.3: the condition is invoked up to the maximum
attempt count; a `(_, non-nil error)` return aborts immediately with that
error; `(true, nil)` is success; exhausting the attempts while the
condition keeps returning `(false, nil)` is a timeout failure. The
condition receives the attempt index so the modelled world may change
between attempts; delays are irrelevant to the verified properties and
are not modelled. -/
def exponentialBackoff (cond : Nat → Bool × Option E) : Nat → Nat → BackoffResult E
  | 0, _ => .timeout
  | steps + 1, i =>
    match cond i with
    | (_, some e) => .aborted e
    | (true, none) => .success
    | (false, none) => exponentialBackoff cond steps (i + 1)

inductive RunnerError (E : Type) where
  | timeout
  | unrecoverable (e : E)
  deriving DecidableEq, Repr

/-- `untagRunner` (source lines 1674-1691): 25 backoff steps; a timeout is
propagated as-is and any other backoff error is wrapped as unrecoverable. -/
def untagRunner (envs : Nat → UntagEnv) : Option (RunnerError UntagError) :=
  match exponentialBackoff (fun i => untagPrimaryNetwork (envs i)) 25 0 with
  | .success => none
  | .timeout => some .timeout
  | .aborted e => some (.unrecoverable e)

/-- C4 counterexample: with exactly one tagged network whose tag-delete
call returns 404 Not Found, `untagPrimaryNetwork` returns `(false, nil)`
(the attempt is retried), not success as the claim states. -/
theorem untagPrimaryNetwork_notFound_not_success :
    untagPrimaryNetwork ⟨.ok ["net1"], fun _ => .notFound⟩ = (false, none)
      ∧ (untagPrimaryNetwork ⟨.ok ["net1"], fun _ => .notFound⟩).1 ≠ true := by
  decide

/-- C4 as amended: zero tagged networks yield success `(true, nil)`; more
than one yields a non-nil error and, through `untagRunner`, an immediate
unrecoverable abort of the retry loop; on exactly one match the tag is
removed and the attempt succeeds only when the tag-delete call succeeds —
any error from it, not-found included, yields `(false, nil)` and a
retry. -/
theorem untagPrimaryNetwork_characterization (env : UntagEnv) :
    (env.listNetworks = .ok [] → untagPrimaryNetwork env = (true, none))
    ∧ (∀ nets, env.listNetworks = .ok nets → 1 < nets.length →
        untagPrimaryNetwork env = (false, some (.multipleNetworks nets.length))
        ∧ ∀ envs : Nat → UntagEnv, (∀ i, envs i = env) →
            untagRunner envs = some (.unrecoverable (.multipleNetworks nets.length)))
    ∧ (∀ n, env.listNetworks = .ok [n] →
        (env.tagDelete n = .ok → untagPrimaryNetwork env = (true, none))
        ∧ (env.tagDelete n ≠ .ok → untagPrimaryNetwork env = (false, none))) := by
  refine ⟨?_, ?_, ?_⟩
  · intro h
    unfold untagPrimaryNetwork
    rw [h]
    rfl
  · intro nets hlist hlen
    have hattempt : untagPrimaryNetwork env = (false, some (.multipleNetworks nets.length)) := by
      unfold untagPrimaryNetwork
      rw [hlist]
      simp [hlen]
    refine ⟨hattempt, fun envs henvs => ?_⟩
    unfold untagRunner exponentialBackoff
    rw [henvs 0, hattempt]
  · intro n hlist
    constructor
    · intro hdel
      unfold untagPrimaryNetwork
      rw [hlist]
      simp [hdel]
    · intro hdel
      cases h : env.tagDelete n with
      | ok => exact absurd h hdel
      | notFound => unfold untagPrimaryNetwork; rw [hlist]; simp [h]
      | conflict => unfold untagPrimaryNetwork; rw [hlist]; simp [h]
      | otherError => unfold untagPrimaryNetwork; rw [hlist]; simp [h]

/-- Witness for C4's amended theorem at concrete inputs: two tagged
networks abort the runner; one network with a failing tag delete is
retried. -/
theorem untagPrimaryNetwork_characterization_witness :
    (untagPrimaryNetwork ⟨.ok ["a", "b"], fun _ => .ok⟩
        = (false, some (.multipleNetworks 2))
      ∧ untagRunner (fun _ => ⟨.ok ["a", "b"], fun _ => .ok⟩)
        = some (.unrecoverable (.multipleNetworks 2)))
    ∧ untagPrimaryNetwork ⟨.ok ["a"], fun _ => .conflict⟩ = (false, none) := by
  constructor
  · have h := (untagPrimaryNetwork_characterization
      ⟨.ok ["a", "b"], fun _ => .ok⟩).2.1 ["a", "b"] rfl (by decide)
    exact ⟨h.1, h.2 (fun _ => ⟨.ok ["a", "b"], fun _ => .ok⟩) (fun _ => rfl)⟩
  · exact ((untagPrimaryNetwork_characterization
      ⟨.ok ["a"], fun _ => .conflict⟩).2.2 "a" rfl).2 (by decide)

/-! ## Bulk object deletion (`deleteContainers` inner batch loop) -/

/-- A Swift bulk-delete response as the source reads it. -/
structure BulkResponse where
  numberDeleted : Nat
  numberNotFound : Nat
  errors : List (String × String)
  deriving DecidableEq, Repr

inductive BulkOutcome where
  | completed
  | transportError
  | fuelExhausted (remaining : List String)
  deriving DecidableEq, Repr

/-- Observable behavior of one queued object-deletion unit: the batches
passed to the bulk-delete call in order, the per-object errors forwarded
to the error channel, and how the unit ended. -/
structure BulkRun where
  calls : List (List String)
  errorsSent : List (String × String)
  outcome : BulkOutcome
  deriving DecidableEq, Repr

/-- The batch loop of `deleteContainers` (source lines 1134-1157): while
the batch is non-empty, call the provider bulk delete; a transport error
stops the unit; per-object errors in the response are forwarded to the
error channel but the loop continues; the batch is then shortened by
`NumberDeleted + NumberNotFound`. The Go `for` loop is embedded with
explicit fuel; `fuelExhausted` marks a run still looping when the fuel
ran out. -/
def bulkDeleteLoop (call : List String → Except Unit BulkResponse) :
    Nat → List String → BulkRun
  | _, [] => ⟨[], [], .completed⟩
  | 0, batch => ⟨[], [], .fuelExhausted batch⟩
  | fuel + 1, batch =>
    match call batch with
    | .error _ => ⟨[batch], [], .transportError⟩
    | .ok resp =>
      let rest :=
        bulkDeleteLoop call fuel (batch.drop (resp.numberDeleted + resp.numberNotFound))
      ⟨batch :: rest.calls, resp.errors ++ rest.errorsSent, rest.outcome⟩

lemma bulkDeleteLoop_nil (call : List String → Except Unit BulkResponse) (fuel : Nat) :
    bulkDeleteLoop call fuel [] = ⟨[], [], .completed⟩ := by
  cases fuel <;> rfl

lemma bulkDeleteLoop_succ (call : List String → Except Unit BulkResponse)
    (fuel : Nat) (a : String) (l : List String) :
    bulkDeleteLoop call (fuel + 1) (a :: l)
      = match call (a :: l) with
        | .error _ => ⟨[a :: l], [], .transportError⟩
        | .ok resp =>
          let rest := bulkDeleteLoop call fuel
            ((a :: l).drop (resp.numberDeleted + resp.numberNotFound))
          ⟨(a :: l) :: rest.calls, resp.errors ++ rest.errorsSent, rest.outcome⟩ := rfl

lemma bulkDeleteLoop_calls_ne_nil (call : List String → Except Unit BulkResponse) :
    ∀ (fuel : Nat) (batch : List String),
      ∀ b ∈ (bulkDeleteLoop call fuel batch).calls, b ≠ [] := by
  intro fuel
  induction fuel with
  | zero =>
    intro batch b hb
    cases batch with
    | nil => rw [bulkDeleteLoop_nil] at hb; cases hb
    | cons a l => cases hb
  | succ fuel ih =>
    intro batch b hb
    cases batch with
    | nil => rw [bulkDeleteLoop_nil] at hb; cases hb
    | cons a l =>
      rw [bulkDeleteLoop_succ] at hb
      cases hc : call (a :: l) with
      | error e =>
        rw [hc] at hb
        simp only [List.mem_singleton] at hb
        subst hb; simp
      | ok resp =>
        rw [hc] at hb
        simp only [List.mem_cons] at hb
        rcases hb with hb | hb
        · subst hb; simp
        · exact ih _ b hb

lemma bulkDeleteLoop_calls_head (call : List String → Except Unit BulkResponse)
    (fuel : Nat) (batch : List String) :
    (bulkDeleteLoop call fuel batch).calls = []
      ∨ ∃ t, (bulkDeleteLoop call fuel batch).calls = batch :: t := by
  cases batch with
  | nil => rw [bulkDeleteLoop_nil]; exact Or.inl rfl
  | cons a l =>
    cases fuel with
    | zero => exact Or.inl rfl
    | succ fuel =>
      rw [bulkDeleteLoop_succ]
      cases hc : call (a :: l) with
      | error e => exact Or.inr ⟨[], rfl⟩
      | ok resp => exact Or.inr ⟨_, rfl⟩

lemma bulkDeleteLoop_chain (call : List String → Except Unit BulkResponse) :
    ∀ (fuel : Nat) (batch : List String),
      List.Chain' (fun b₁ b₂ => ∃ resp, call b₁ = .ok resp
          ∧ b₂ = b₁.drop (resp.numberDeleted + resp.numberNotFound))
        (bulkDeleteLoop call fuel batch).calls := by
  intro fuel
  induction fuel with
  | zero =>
    intro batch
    cases batch with
    | nil => rw [bulkDeleteLoop_nil]; exact List.chain'_nil
    | cons a l => exact List.chain'_nil
  | succ fuel ih =>
    intro batch
    cases batch with
    | nil => rw [bulkDeleteLoop_nil]; exact List.chain'_nil
    | cons a l =>
      rw [bulkDeleteLoop_succ]
      cases hc : call (a :: l) with
      | error e => simp
      | ok resp =>
        dsimp only
        rw [List.chain'_cons']
        refine ⟨?_, ih _⟩
        intro h hh
        rcases bulkDeleteLoop_calls_head call fuel
          ((a :: l).drop (resp.numberDeleted + resp.numberNotFound)) with hnil | ⟨t, ht⟩
        · rw [hnil] at hh; cases hh
        · rw [ht] at hh
          simp only [List.head?_cons, Option.mem_def, Option.some.injEq] at hh
          exact ⟨resp, hc, hh.symm⟩

lemma bulkDeleteLoop_no_timeout (call : List String → Except Unit BulkResponse)
    (hprog : ∀ b : List String, b ≠ [] → ∀ resp, call b = .ok resp →
      1 ≤ resp.numberDeleted + resp.numberNotFound) :
    ∀ (fuel : Nat) (batch : List String), batch.length ≤ fuel →
      ∀ rem, (bulkDeleteLoop call fuel batch).outcome ≠ .fuelExhausted rem := by
  intro fuel
  induction fuel with
  | zero =>
    intro batch hlen rem
    have hb : batch = [] := List.eq_nil_of_length_eq_zero (Nat.le_zero.mp hlen)
    subst hb
    rw [bulkDeleteLoop_nil]
    simp
  | succ fuel ih =>
    intro batch hlen rem
    cases batch with
    | nil => rw [bulkDeleteLoop_nil]; simp
    | cons a l =>
      rw [bulkDeleteLoop_succ]
      cases hc : call (a :: l) with
      | error e => simp
      | ok resp =>
        dsimp only
        apply ih
        have h1 := hprog (a :: l) (by simp) resp hc
        rw [List.length_drop]
        simp only [List.length_cons] at hlen ⊢
        omega

/-- C7 counterexample input: a provider bulk-delete that reports zero
deleted, zero not-found and one per-object error. -/
def stuckBulkCall : List String → Except Unit BulkResponse :=
  fun _ => .ok ⟨0, 0, [("obj1", "Conflict")]⟩

/-- C7 counterexample: with a response reporting zero processed objects
and one per-object error, the batch after the call equals the batch
before it (no strict decrease), the per-object error does not terminate
the loop, and the loop spins (here shown exhausting 3 fuel steps with the
batch unchanged). -/
theorem bulkDeleteLoop_zero_progress_spins :
    (bulkDeleteLoop stuckBulkCall 3 ["obj1"]).calls = [["obj1"], ["obj1"], ["obj1"]]
      ∧ (bulkDeleteLoop stuckBulkCall 3 ["obj1"]).outcome = .fuelExhausted ["obj1"]
      ∧ (bulkDeleteLoop stuckBulkCall 3 ["obj1"]).errorsSent ≠ [] := by
  decide

/-- C7 as amended: no bulk-delete call is issued with an empty batch;
after each successful call the next batch is exactly the previous one
with the first `deleted + not-found` objects dropped (a strict decrease
only when that count is positive); a transport error stops the unit while
per-object errors only get forwarded; and whenever every successful call
reports at least one deleted or not-found object, the loop never runs out
of fuel once given at least the batch length (it terminates at the empty
batch or a transport error). -/
theorem bulkDeleteLoop_amended (call : List String → Except Unit BulkResponse)
    (fuel : Nat) (batch : List String) :
    (∀ b ∈ (bulkDeleteLoop call fuel batch).calls, b ≠ [])
    ∧ List.Chain' (fun b₁ b₂ => ∃ resp, call b₁ = .ok resp
        ∧ b₂ = b₁.drop (resp.numberDeleted + resp.numberNotFound))
        (bulkDeleteLoop call fuel batch).calls
    ∧ ((∀ b : List String, b ≠ [] → ∀ resp, call b = .ok resp →
          1 ≤ resp.numberDeleted + resp.numberNotFound) →
        batch.length ≤ fuel →
        ∀ rem, (bulkDeleteLoop call fuel batch).outcome ≠ .fuelExhausted rem) :=
  ⟨bulkDeleteLoop_calls_ne_nil call fuel batch,
   bulkDeleteLoop_chain call fuel batch,
   fun hprog hlen => bulkDeleteLoop_no_timeout call hprog fuel batch hlen⟩

/-- Witness for C7's amended theorem at a concrete well-behaved provider
(each call deletes one object): a two-object batch with fuel 2 issues no
empty-batch call and terminates. -/
theorem bulkDeleteLoop_amended_witness :
    (∀ b ∈ (bulkDeleteLoop (fun _ => .ok ⟨1, 0, []⟩) 2 ["x", "y"]).calls, b ≠ [])
    ∧ ∀ rem, (bulkDeleteLoop (fun _ => .ok ⟨1, 0, []⟩) 2 ["x", "y"]).outcome
        ≠ .fuelExhausted rem :=
  ⟨(bulkDeleteLoop_amended (fun _ => .ok ⟨1, 0, []⟩) 2 ["x", "y"]).1,
   (bulkDeleteLoop_amended (fun _ => .ok ⟨1, 0, []⟩) 2 ["x", "y"]).2.2
     (fun b hb resp hr => by cases hr; decide) (by decide)⟩

/-! ## Router interface removal (`removeRouterInterfaces`) -/

/-- A router interface port: ID and the subnet IDs of its fixed IPs. -/
structure RouterPort where
  id : String
  fixedIPSubnets : List String
  deriving DecidableEq, Repr

/-- `isClusterRouter` from the source: the router's tag list contains the
exact cluster tag. -/
def isClusterRouter (clusterTag : String) (tags : List String) : Bool :=
  tags.contains clusterTag

/-- `isClusterSubnet` from the source: the subnet ID occurs in the
cluster-tagged subnet list (subnets are represented by their IDs). -/
def isClusterSubnet (subnets : List String) (subnetID : String) : Bool :=
  subnets.contains subnetID

/-- Loop state of `removeRouterInterfaces`: the removed-subnet set, the
two counters, the subnet IDs passed to `RemoveInterface` in order, and
whether the loop took the early `return false, nil` exit. -/
structure RIState where
  removedSubnets : List String
  numberDeleted : Nat
  customCount : Nat
  events : List String
  aborted : Bool
  deriving DecidableEq, Repr

/-- The nested port/fixed-IP loop of `removeRouterInterfaces`, flattened
to (port ID, subnet ID) pairs in iteration order. -/
def riPairs (allPorts : List RouterPort) : List (String × String) :=
  allPorts.flatMap fun p => p.fixedIPSubnets.map fun s => (p.id, s)

/-- The loop body of `removeRouterInterfaces` (source lines 848-875):
skip-and-count interfaces that are custom (foreign router and non-cluster
subnet), skip subnets already removed, otherwise call `RemoveInterface`;
ok and 404 mark the subnet removed and count it, any other error aborts
the whole task with `(false, nil)`. -/
def riStep (clusterRouter : Bool) (allSubnets : List String)
    (removeInterface : String → ApiResult) :
    List (String × String) → RIState → RIState
  | [], st => st
  | (_, sid) :: rest, st =>
    if !clusterRouter && !(isClusterSubnet allSubnets sid) then
      riStep clusterRouter allSubnets removeInterface rest
        { st with customCount := st.customCount + 1 }
    else if sid ∈ st.removedSubnets then
      riStep clusterRouter allSubnets removeInterface rest st
    else
      match removeInterface sid with
      | .ok => riStep clusterRouter allSubnets removeInterface rest
          { st with removedSubnets := sid :: st.removedSubnets,
                    numberDeleted := st.numberDeleted + 1,
                    events := st.events ++ [sid] }
      | .notFound => riStep clusterRouter allSubnets removeInterface rest
          { st with removedSubnets := sid :: st.removedSubnets,
                    numberDeleted := st.numberDeleted + 1,
                    events := st.events ++ [sid] }
      | _ => { st with events := st.events ++ [sid], aborted := true }

/-- `removeRouterInterfaces` (source lines 808-878), given the router's
tags, its interface ports, the cluster-tagged subnet IDs and the
`RemoveInterface` oracle; the completion count is computed in `Int` as Go
does, since subtracting the custom interfaces can go below zero. -/
def removeRouterInterfaces (filter : Filter) (routerTags : List String)
    (allPorts : List RouterPort) (allSubnets : List String)
    (removeInterface : String → ApiResult) : (Bool × Option String) × RIState :=
  let clusterTag := "openshiftClusterID=" ++ ((filter.lookup "openshiftClusterID").getD "")
  let clusterRouter := isClusterRouter clusterTag routerTags
  let st := riStep clusterRouter allSubnets removeInterface (riPairs allPorts)
    ⟨[], 0, 0, [], false⟩
  if st.aborted then ((false, none), st)
  else (((allPorts.length : Int) - (st.customCount : Int) == (st.numberDeleted : Int), none), st)

lemma riStep_invariant (clusterRouter : Bool) (allSubnets : List String)
    (removeInterface : String → ApiResult) :
    ∀ (pairs : List (String × String)) (st : RIState),
      st.events.Nodup → (∀ e ∈ st.events, e ∈ st.removedSubnets) →
      (riStep clusterRouter allSubnets removeInterface pairs st).events.Nodup
      ∧ ∀ sid ∈ (riStep clusterRouter allSubnets removeInterface pairs st).events,
          sid ∈ st.events
            ∨ (clusterRouter = false → isClusterSubnet allSubnets sid = true) := by
  intro pairs
  induction pairs with
  | nil =>
    intro st hnd _
    exact ⟨hnd, fun sid hsid => Or.inl hsid⟩
  | cons pair rest ih =>
    intro st hnd hsub
    obtain ⟨pid, sid⟩ := pair
    rw [riStep]
    by_cases hcustom : (!clusterRouter && !(isClusterSubnet allSubnets sid)) = true
    · rw [if_pos hcustom]
      exact ih { st with customCount := st.customCount + 1 } hnd hsub
    · rw [if_neg hcustom]
      have hcluster : clusterRouter = false → isClusterSubnet allSubnets sid = true := by
        intro hcr
        by_contra hcs
        exact hcustom (by simp [hcr, hcs])
      by_cases hrm : sid ∈ st.removedSubnets
      · rw [if_pos hrm]
        exact ih st hnd hsub
      · rw [if_neg hrm]
        have hfresh : sid ∉ st.events := fun hmem => hrm (hsub sid hmem)
        have hnd' : (st.events ++ [sid]).Nodup := by
          rw [List.nodup_append]
          exact ⟨hnd, List.nodup_singleton sid, by simpa using hfresh⟩
        cases hri : removeInterface sid with
        | ok =>
          dsimp only
          have hsub' : ∀ e ∈ st.events ++ [sid], e ∈ sid :: st.removedSubnets := by
            intro e he
            rcases List.mem_append.mp he with he | he
            · exact List.mem_cons_of_mem sid (hsub e he)
            · simp only [List.mem_singleton] at he
              subst he; exact List.mem_cons_self e _
          obtain ⟨hnd'', hmem''⟩ := ih
            { st with removedSubnets := sid :: st.removedSubnets,
                      numberDeleted := st.numberDeleted + 1,
                      events := st.events ++ [sid] } hnd' hsub'
          refine ⟨hnd'', fun s hs => ?_⟩
          rcases hmem'' s hs with hs' | hs'
          · rcases List.mem_append.mp hs' with hs'' | hs''
            · exact Or.inl hs''
            · simp only [List.mem_singleton] at hs''
              subst hs''; exact Or.inr hcluster
          · exact Or.inr hs'
        | notFound =>
          dsimp only
          have hsub' : ∀ e ∈ st.events ++ [sid], e ∈ sid :: st.removedSubnets := by
            intro e he
            rcases List.mem_append.mp he with he | he
            · exact List.mem_cons_of_mem sid (hsub e he)
            · simp only [List.mem_singleton] at he
              subst he; exact List.mem_cons_self e _
          obtain ⟨hnd'', hmem''⟩ := ih
            { st with removedSubnets := sid :: st.removedSubnets,
                      numberDeleted := st.numberDeleted + 1,
                      events := st.events ++ [sid] } hnd' hsub'
          refine ⟨hnd'', fun s hs => ?_⟩
          rcases hmem'' s hs with hs' | hs'
          · rcases List.mem_append.mp hs' with hs'' | hs''
            · exact Or.inl hs''
            · simp only [List.mem_singleton] at hs''
              subst hs''; exact Or.inr hcluster
          · exact Or.inr hs'
        | conflict =>
          dsimp only
          refine ⟨hnd', fun s hs => ?_⟩
          rcases List.mem_append.mp hs with hs' | hs'
          · exact Or.inl hs'
          · simp only [List.mem_singleton] at hs'
            subst hs'; exact Or.inr hcluster
        | otherError =>
          dsimp only
          refine ⟨hnd', fun s hs => ?_⟩
          rcases List.mem_append.mp hs with hs' | hs'
          · exact Or.inl hs'
          · simp only [List.mem_singleton] at hs'
            subst hs'; exact Or.inr hcluster

lemma riStep_all_custom (allSubnets : List String)
    (removeInterface : String → ApiResult) :
    ∀ (pairs : List (String × String)) (st : RIState),
      (∀ pair ∈ pairs, isClusterSubnet allSubnets pair.2 = false) →
      riStep false allSubnets removeInterface pairs st
        = { st with customCount := st.customCount + pairs.length } := by
  intro pairs
  induction pairs with
  | nil => intro st _; rfl
  | cons pair rest ih =>
    intro st hall
    obtain ⟨pid, sid⟩ := pair
    rw [riStep]
    have hsid : isClusterSubnet allSubnets sid = false :=
      hall (pid, sid) (List.mem_cons_self _ _)
    rw [if_pos (by simp [hsid])]
    rw [ih _ (fun p hp => hall p (List.mem_cons_of_mem _ hp))]
    simp only [List.length_cons]
    congr 1
    omega

lemma riPairs_length_of_single (allPorts : List RouterPort)
    (h : ∀ p ∈ allPorts, p.fixedIPSubnets.length = 1) :
    (riPairs allPorts).length = allPorts.length := by
  induction allPorts with
  | nil => rfl
  | cons p rest ih =>
    simp only [riPairs, List.flatMap_cons, List.length_append, List.length_map]
    rw [h p (List.mem_cons_self _ _)]
    have := ih fun q hq => h q (List.mem_cons_of_mem _ hq)
    simp only [riPairs] at this
    simp only [this, List.length_cons]
    omega

/-- C8: in `removeRouterInterfaces`, (i) for a router not carrying the
exact cluster-ID tag, every subnet passed to `RemoveInterface` lies in
the cluster-tagged subnet list; (ii) for every router each subnet is
passed to `RemoveInterface` at most once, even when several fixed IPs
reference it; (iii) a foreign router all of whose interface ports have a
single, non-cluster fixed IP is left untouched (no `RemoveInterface`
call), every such interface is subtracted from the completion count, and
the task still reports full success `(true, nil)`. -/
theorem removeRouterInterfaces_invariants (filter : Filter) (routerTags : List String)
    (allPorts : List RouterPort) (allSubnets : List String)
    (removeInterface : String → ApiResult) :
    (isClusterRouter ("openshiftClusterID="
          ++ ((filter.lookup "openshiftClusterID").getD "")) routerTags = false →
        ∀ sid ∈ (removeRouterInterfaces filter routerTags allPorts allSubnets
            removeInterface).2.events,
          isClusterSubnet allSubnets sid = true)
    ∧ (removeRouterInterfaces filter routerTags allPorts allSubnets
        removeInterface).2.events.Nodup
    ∧ (isClusterRouter ("openshiftClusterID="
          ++ ((filter.lookup "openshiftClusterID").getD "")) routerTags = false →
        (∀ p ∈ allPorts, p.fixedIPSubnets.length = 1) →
        (∀ p ∈ allPorts, ∀ s ∈ p.fixedIPSubnets, isClusterSubnet allSubnets s = false) →
        (removeRouterInterfaces filter routerTags allPorts allSubnets
            removeInterface).1 = (true, none)
        ∧ (removeRouterInterfaces filter routerTags allPorts allSubnets
            removeInterface).2.events = []) := by
  have hinv := riStep_invariant
    (isClusterRouter ("openshiftClusterID="
      ++ ((filter.lookup "openshiftClusterID").getD "")) routerTags)
    allSubnets removeInterface (riPairs allPorts) ⟨[], 0, 0, [], false⟩
    List.nodup_nil (by intro e he; cases he)
  refine ⟨?_, ?_, ?_⟩
  · intro hforeign sid hsid
    unfold removeRouterInterfaces at hsid
    dsimp only at hsid
    split at hsid <;>
    · rcases hinv.2 sid hsid with h | h
      · cases h
      · exact h hforeign
  · unfold removeRouterInterfaces
    dsimp only
    split <;> exact hinv.1
  · intro hforeign hsingle hnoncluster
    have hallcustom : ∀ pair ∈ riPairs allPorts, isClusterSubnet allSubnets pair.2 = false := by
      intro pair hpair
      unfold riPairs at hpair
      rw [List.mem_flatMap] at hpair
      obtain ⟨p, hp, hpair⟩ := hpair
      rw [List.mem_map] at hpair
      obtain ⟨s, hs, rfl⟩ := hpair
      exact hnoncluster p hp s hs
    have hrun : riStep false allSubnets removeInterface (riPairs allPorts)
        ⟨[], 0, 0, [], false⟩
        = { removedSubnets := [], numberDeleted := 0,
            customCount := 0 + (riPairs allPorts).length, events := [], aborted := false } :=
      riStep_all_custom allSubnets removeInterface (riPairs allPorts) _ hallcustom
    unfold removeRouterInterfaces
    dsimp only
    rw [hforeign, hrun]
    simp only [Nat.zero_add]
    rw [riPairs_length_of_single allPorts hsingle]
    constructor
    · simp
    · rfl

/-- Witness for C8 at a concrete foreign router with one single-IP
custom interface: no removal call is made and the task reports full
success. -/
theorem removeRouterInterfaces_invariants_witness :
    (removeRouterInterfaces [("openshiftClusterID", "abc")] ["unrelated-tag"]
        [⟨"p1", ["s9"]⟩] ["s1"] (fun _ => .ok)).1 = (true, none)
      ∧ (removeRouterInterfaces [("openshiftClusterID", "abc")] ["unrelated-tag"]
        [⟨"p1", ["s9"]⟩] ["s1"] (fun _ => .ok)).2.events = [] :=
  (removeRouterInterfaces_invariants [("openshiftClusterID", "abc")] ["unrelated-tag"]
      [⟨"p1", ["s9"]⟩] ["s1"] (fun _ => .ok)).2.2
    (by decide) (by decide) (by decide)

/-! ## Leftover load balancers and network deletion
(`deleteLeftoverLoadBalancers`, `deleteNetworks`) -/

/-- Provider calls observable in the network-deletion path. -/
inductive NetEvent where
  | netDelete (id : String)
  | fipDelete (fipID : String)
  | lbDelete (id : String)
  | portsCleanup (networkID : String)
  deriving DecidableEq, Repr

structure LoadBalancer where
  id : String
  description : String
  vipPortID : String
  deriving DecidableEq, Repr

/-- Errors `deleteLeftoverLoadBalancers` can return: a client-build
error, a list/extract error, or the final "only deleted d of t load
balancers" check. -/
inductive LBStepError where
  | clientError
  | listError
  | onlyDeleted (deleted total : Nat)
  deriving DecidableEq, Repr

/-- Environment of the leftover-load-balancer step for one network:
whether the Octavia endpoint is absent, whether the client build fails
otherwise, the load balancers listed by VIP network, the floating IPs
listed per VIP port, and the FIP-delete and LB-delete call results. -/
structure LBEnv where
  octaviaAbsent : Bool
  clientErr : Bool
  listLBs : Except Unit (List LoadBalancer)
  portFIPs : String → Except Unit (List String)
  fipDelete : String → ApiResult
  lbDelete : String → ApiResult

/-- The FIP loop of `deletePortFIPs` (source lines 606-617): delete each
floating IP; 404 is tolerated; any other error returns it immediately. -/
def fipDeleteLoop (fipDelete : String → ApiResult) : List String → List NetEvent × Bool
  | [] => ([], true)
  | f :: fs =>
    match fipDelete f with
    | .ok =>
      let rest := fipDeleteLoop fipDelete fs
      (.fipDelete f :: rest.1, rest.2)
    | .notFound =>
      let rest := fipDeleteLoop fipDelete fs
      (.fipDelete f :: rest.1, rest.2)
    | _ => ([.fipDelete f], false)

/-- `deletePortFIPs` (source lines 587-619): list the FIPs of the port,
then delete each; a list error or a non-404 delete error fails the call. -/
def deletePortFIPsModel (env : LBEnv) (portID : String) : List NetEvent × Bool :=
  match env.portFIPs portID with
  | .error _ => ([], false)
  | .ok fips => fipDeleteLoop env.fipDelete fips

/-- One load balancer is handled successfully: it carries the description
prefix, its VIP port's FIPs were all deleted, and its cascade delete
succeeded or found it already gone. -/
def lbHandled (env : LBEnv) (lb : LoadBalancer) : Prop :=
  goHasPrefix lb.description "Kubernetes external service" = true
    ∧ (deletePortFIPsModel env lb.vipPortID).2 = true
    ∧ (env.lbDelete lb.id = .ok ∨ env.lbDelete lb.id = .notFound)

instance (env : LBEnv) (lb : LoadBalancer) : Decidable (lbHandled env lb) := by
  unfold lbHandled
  infer_instance

/-- The per-LB loop of `deleteLeftoverLoadBalancers` (source lines
920-946): skip LBs without the description prefix (not counted), delete
each matching LB's port FIPs first (on failure skip the LB, keeping the
FIP reference), then cascade-delete the LB, counting ok and 404. -/
def lbLoop (env : LBEnv) : List LoadBalancer → List NetEvent × Nat
  | [] => ([], 0)
  | lb :: rest =>
    if goHasPrefix lb.description "Kubernetes external service" then
      let fipsRes := deletePortFIPsModel env lb.vipPortID
      if fipsRes.2 then
        let r := lbLoop env rest
        match env.lbDelete lb.id with
        | .ok => (fipsRes.1 ++ [.lbDelete lb.id] ++ r.1, r.2 + 1)
        | .notFound => (fipsRes.1 ++ [.lbDelete lb.id] ++ r.1, r.2 + 1)
        | _ => (fipsRes.1 ++ [.lbDelete lb.id] ++ r.1, r.2)
      else
        let r := lbLoop env rest
        (fipsRes.1 ++ r.1, r.2)
    else
      lbLoop env rest

/-- `deleteLeftoverLoadBalancers` (source lines 889-952): success when
the Octavia endpoint is absent, otherwise the final count check compares
the handled count against ALL listed load balancers, matching the
description prefix or not. -/
def deleteLeftoverLoadBalancers (env : LBEnv) : List NetEvent × Option LBStepError :=
  if env.octaviaAbsent then ([], none)
  else if env.clientErr then ([], some .clientError)
  else
    match env.listLBs with
    | .error _ => ([], some .listError)
    | .ok allLoadBalancers =>
      let r := lbLoop env allLoadBalancers
      if r.2 = allLoadBalancers.length then (r.1, none)
      else (r.1, some (.onlyDeleted r.2 allLoadBalancers.length))

/-- The per-network handling of `deleteNetworks` (source lines 1036-1065):
attempt the network delete; ok and 404 count as deleted; on any other
error run the leftover-LB step first and attempt the remaining ports
only when that step returned nil, never counting the network this pass. -/
def handleNetworkDelete (networkID : String) (netDeleteResult : ApiResult) (env : LBEnv) :
    Bool × List NetEvent :=
  if netDeleteResult = .ok then (true, [.netDelete networkID])
  else if netDeleteResult = .notFound then (true, [.netDelete networkID])
  else
    let r := deleteLeftoverLoadBalancers env
    match r.2 with
    | some _ => (false, .netDelete networkID :: r.1)
    | none => (false, .netDelete networkID :: r.1 ++ [.portsCleanup networkID])

/-- C5 counterexample environment: the network's single load balancer
does not carry the "Kubernetes external service" description prefix. -/
def lbEnvForeignLB : LBEnv :=
  { octaviaAbsent := false, clientErr := false,
    listLBs := .ok [⟨"lb1", "foo", "p1"⟩],
    portFIPs := fun _ => .ok [],
    fipDelete := fun _ => .ok,
    lbDelete := fun _ => .ok }

/-- C5 counterexample: every load balancer identified by the description
prefix was deleted (there are none), yet the load-balancer step reports
the error "only deleted 0 of 1", so the ports step is skipped. -/
theorem deleteLeftoverLoadBalancers_foreign_lb_fails :
    (deleteLeftoverLoadBalancers lbEnvForeignLB).2 = some (.onlyDeleted 0 1)
      ∧ (deleteLeftoverLoadBalancers lbEnvForeignLB).1 = []
      ∧ NetEvent.portsCleanup "n1" ∉ (handleNetworkDelete "n1" .conflict lbEnvForeignLB).2 := by
  decide

lemma lbLoop_count_le (env : LBEnv) :
    ∀ lbs : List LoadBalancer, (lbLoop env lbs).2 ≤ lbs.length := by
  intro lbs
  induction lbs with
  | nil => exact Nat.le_refl 0
  | cons lb rest ih =>
    rw [lbLoop]
    dsimp only
    split
    · split
      · cases env.lbDelete lb.id <;> simp only [List.length_cons] <;> omega
      · simp only [List.length_cons]; omega
    · simp only [List.length_cons]; omega

lemma lbLoop_count_eq_iff (env : LBEnv) :
    ∀ lbs : List LoadBalancer,
      (lbLoop env lbs).2 = lbs.length ↔ ∀ lb ∈ lbs, lbHandled env lb := by
  intro lbs
  induction lbs with
  | nil => simp [lbLoop]
  | cons lb rest ih =>
    rw [lbLoop]
    dsimp only
    have hle := lbLoop_count_le env rest
    by_cases hpre : goHasPrefix lb.description "Kubernetes external service" = true
    · rw [if_pos hpre]
      by_cases hfip : (deletePortFIPsModel env lb.vipPortID).2 = true
      · rw [if_pos hfip]
        cases hdel : env.lbDelete lb.id with
        | ok =>
          simp only [List.length_cons, Nat.add_right_cancel_iff, ih, List.mem_cons]
          constructor
          · intro h x hx
            rcases hx with hx | hx
            · subst hx; exact ⟨hpre, hfip, Or.inl hdel⟩
            · exact h x hx
          · intro h x hx
            exact h x (Or.inr hx)
        | notFound =>
          simp only [List.length_cons, Nat.add_right_cancel_iff, ih, List.mem_cons]
          constructor
          · intro h x hx
            rcases hx with hx | hx
            · subst hx; exact ⟨hpre, hfip, Or.inr hdel⟩
            · exact h x hx
          · intro h x hx
            exact h x (Or.inr hx)
        | conflict =>
          simp only [List.length_cons]
          constructor
          · intro h; omega
          · intro h
            have := h lb (List.mem_cons_self _ _)
            rcases this.2.2 with hc | hc <;> rw [hdel] at hc <;> cases hc
        | otherError =>
          simp only [List.length_cons]
          constructor
          · intro h; omega
          · intro h
            have := h lb (List.mem_cons_self _ _)
            rcases this.2.2 with hc | hc <;> rw [hdel] at hc <;> cases hc
      · rw [if_neg hfip]
        simp only [List.length_cons]
        constructor
        · intro h; omega
        · intro h
          exact absurd (h lb (List.mem_cons_self _ _)).2.1 hfip
    · rw [if_neg hpre]
      simp only [List.length_cons]
      constructor
      · intro h; omega
      · intro h
        exact absurd (h lb (List.mem_cons_self _ _)).1 hpre

/-- Per-LB trace shape of the loop: each matching load balancer's FIP
deletions precede its own delete call. -/
lemma lbLoop_trace_shape (env : LBEnv) :
    ∀ lbs : List LoadBalancer,
      (lbLoop env lbs).1 = lbs.flatMap fun lb =>
        if goHasPrefix lb.description "Kubernetes external service" then
          if (deletePortFIPsModel env lb.vipPortID).2 then
            (deletePortFIPsModel env lb.vipPortID).1 ++ [.lbDelete lb.id]
          else (deletePortFIPsModel env lb.vipPortID).1
        else [] := by
  intro lbs
  induction lbs with
  | nil => rfl
  | cons lb rest ih =>
    rw [lbLoop, List.flatMap_cons]
    dsimp only
    split
    · split
      · cases env.lbDelete lb.id <;> simp [ih]
      · simp [ih]
    · simp [ih]

/-- C5 as amended: when a network delete fails with an error other than
not-found, the handler runs the leftover-load-balancer step first and
issues the remaining-ports cleanup exactly when that step returned nil,
after all of the step's calls; within the step each matching load
balancer's floating-IP deletions precede its own delete call; and the
step reports success precisely when the Octavia endpoint is absent or
every load balancer listed on the network — matching the description
prefix or not — was handled (prefix present, FIPs deleted, LB deleted or
already gone): a single non-matching load balancer on the network makes
the step report failure even though every prefix-matching one was
deleted. -/
theorem deleteNetworks_leftover_lb_behavior (env : LBEnv) (networkID : String)
    (netDeleteResult : ApiResult) :
    (netDeleteResult ≠ .ok → netDeleteResult ≠ .notFound →
      handleNetworkDelete networkID netDeleteResult env
        = (false, .netDelete networkID :: (deleteLeftoverLoadBalancers env).1
            ++ (if (deleteLeftoverLoadBalancers env).2 = none then
                  [.portsCleanup networkID] else [])))
    ∧ ((deleteLeftoverLoadBalancers env).2 = none ↔
        env.octaviaAbsent = true
          ∨ (env.clientErr = false ∧ ∃ lbs, env.listLBs = .ok lbs
              ∧ ∀ lb ∈ lbs, lbHandled env lb))
    ∧ (∀ lbs, env.listLBs = .ok lbs →
        (lbLoop env lbs).1 = lbs.flatMap fun lb =>
          if goHasPrefix lb.description "Kubernetes external service" then
            if (deletePortFIPsModel env lb.vipPortID).2 then
              (deletePortFIPsModel env lb.vipPortID).1 ++ [.lbDelete lb.id]
            else (deletePortFIPsModel env lb.vipPortID).1
          else []) := by
  refine ⟨?_, ?_, fun lbs _ => lbLoop_trace_shape env lbs⟩
  · intro h1 h2
    unfold handleNetworkDelete
    rw [if_neg h1, if_neg h2]
    cases hr : (deleteLeftoverLoadBalancers env).2 with
    | some e => simp [hr]
    | none => simp [hr]
  · constructor
    · intro h
      unfold deleteLeftoverLoadBalancers at h
      by_cases hoct : env.octaviaAbsent = true
      · exact Or.inl hoct
      · rw [if_neg hoct] at h
        by_cases hcli : env.clientErr = true
        · rw [if_pos hcli] at h
          simp at h
        · rw [if_neg hcli] at h
          cases hlist : env.listLBs with
          | error e => rw [hlist] at h; simp at h
          | ok lbs =>
            rw [hlist] at h
            dsimp only at h
            by_cases hcount : (lbLoop env lbs).2 = lbs.length
            · refine Or.inr ⟨by simpa using hcli, lbs, rfl, ?_⟩
              exact (lbLoop_count_eq_iff env lbs).mp hcount
            · rw [if_neg hcount] at h
              simp at h
    · intro h
      unfold deleteLeftoverLoadBalancers
      by_cases hoct : env.octaviaAbsent = true
      · rw [if_pos hoct]
      · rw [if_neg hoct]
        rcases h with h | ⟨hcli, lbs, hlist, hall⟩
        · exact absurd h hoct
        · rw [if_neg (by simp [hcli]), hlist]
          dsimp only
          rw [if_pos ((lbLoop_count_eq_iff env lbs).mpr hall)]

/-- C5 witness environment: one matching load balancer with one floating
IP; everything succeeds. -/
def lbEnvGood : LBEnv :=
  { octaviaAbsent := false, clientErr := false,
    listLBs := .ok [⟨"lb1", "Kubernetes external service abc", "p1"⟩],
    portFIPs := fun _ => .ok ["f1"],
    fipDelete := fun _ => .ok,
    lbDelete := fun _ => .ok }

/-- Witness for C5's amended theorem on a conflicting network delete with
one well-behaved matching load balancer. -/
theorem deleteNetworks_leftover_lb_behavior_witness :
    handleNetworkDelete "n1" .conflict lbEnvGood
      = (false, .netDelete "n1" :: (deleteLeftoverLoadBalancers lbEnvGood).1
          ++ (if (deleteLeftoverLoadBalancers lbEnvGood).2 = none then
                [.portsCleanup "n1"] else [])) :=
  (deleteNetworks_leftover_lb_behavior lbEnvGood "n1" .conflict).1
    (by decide) (by decide)

/-! ## Ports worker pool (`deletePorts` / `deletePortsWorker`) -/

/-- A hexadecimal digit as in the character class of
`cloudProviderSGNamePattern`. -/
def isHexDigitChar (c : Char) : Bool :=
  ('0' ≤ c && c ≤ '9') || ('a' ≤ c && c ≤ 'f') || ('A' ≤ c && c ≤ 'F')

/-- Consume exactly `n` hexadecimal digits. -/
def consumeHex : Nat → List Char → Option (List Char)
  | 0, cs => some cs
  | _ + 1, [] => none
  | n + 1, c :: cs => if isHexDigitChar c then consumeHex n cs else none

/-- Consume one dash. -/
def consumeDash : List Char → Option (List Char)
  | c :: cs => if c = '-' then some cs else none
  | [] => none

/-- `regexp.MustCompile(cloudProviderSGNamePattern).MatchString`: the
pattern `^lb-sg-` followed by dash-separated hex runs of lengths
8, 4, 4, 4 and 12; anchored only at the start, so any suffix after the
last run is accepted. -/
def matchesCloudProviderSGName (s : String) : Bool :=
  if ("lb-sg-".data).isPrefixOf s.data then
    (do
      let r1 ← consumeHex 8 (s.data.drop 6)
      let r2 ← consumeDash r1
      let r3 ← consumeHex 4 r2
      let r4 ← consumeDash r3
      let r5 ← consumeHex 4 r4
      let r6 ← consumeDash r5
      let r7 ← consumeHex 4 r6
      let r8 ← consumeDash r7
      let _ ← consumeHex 12 r8
      pure ()).isSome
  else false

/-- A Neutron security group: ID and name. -/
structure SecGroup where
  id : String
  name : String
  deriving DecidableEq, Repr

/-- A Neutron port as the worker sees it: ID and attached security-group
IDs. -/
structure Port where
  id : String
  securityGroups : List String
  deriving DecidableEq, Repr

/-- Provider calls observable from the ports worker. -/
inductive PortEvent where
  | fipDissociate (fipID : String)
  | portClearSGs (portID : String)
  | sgDelete (sgID : String)
  | portDelete (portID : String)
  | trunkDelete (portID : String)
  deriving DecidableEq, Repr

/-- Environment of one `deletePorts` invocation: the prefetched
FIP-by-port cache and the call results of FIP dissociation, SG deletion
and port deletion. -/
structure PortsEnv where
  fipByPort : List (String × String)
  fipUpdate : String → ApiResult
  sgDelete : String → ApiResult
  portDelete : String → ApiResult

/-- One iteration of the security-group loop in `deletePortsWorker`
(source lines 458-471): look the group up in the (mutable) cache; if its
name matches the managed pattern, attempt the delete; ok and 404 remove
it from the cache; conflict is tolerated silently and anything else only
logged. Groups that miss the cache or the pattern are untouched. -/
def sgFoldStep (env : PortsEnv) (acc : List SecGroup × List PortEvent) (gid : String) :
    List SecGroup × List PortEvent :=
  match acc.1.find? (fun g => g.id == gid) with
  | some g =>
    if matchesCloudProviderSGName g.name then
      let evs := acc.2 ++ [.sgDelete gid]
      match env.sgDelete gid with
      | .ok => (acc.1.filter (fun g2 => !(g2.id == gid)), evs)
      | .notFound => (acc.1.filter (fun g2 => !(g2.id == gid)), evs)
      | .conflict => (acc.1, evs)
      | .otherError => (acc.1, evs)
    else acc
  | none => acc

/-- The tail of `deletePortsWorker` after the FIP step (source lines
449-483): clear all security groups from the port, run the SG loop, then
delete the port; on any port-delete error delete the associated trunk and
leave the port for the next outer invocation. -/
def processPortAfterFip (env : PortsEnv) (sgByID : List SecGroup) (port : Port)
    (evs0 : List PortEvent) : List SecGroup × List PortEvent × Bool :=
  let evs1 := evs0 ++ [.portClearSGs port.id]
  let sgRes := port.securityGroups.foldl (sgFoldStep env) (sgByID, evs1)
  let evs2 := sgRes.2 ++ [.portDelete port.id]
  match env.portDelete port.id with
  | .ok => (sgRes.1, evs2, true)
  | _ => (sgRes.1, evs2 ++ [.trunkDelete port.id], false)

/-- One port handled by `deletePortsWorker` (source lines 430-486): if a
cached FIP is associated, dissociate it first; a non-404 failure there
skips the port entirely. Returns the updated SG cache, the emitted
calls, and whether the port counted as deleted. -/
def processPort (env : PortsEnv) (sgByID : List SecGroup) (port : Port) :
    List SecGroup × List PortEvent × Bool :=
  match env.fipByPort.lookup port.id with
  | some fipID =>
    match env.fipUpdate fipID with
    | .ok => processPortAfterFip env sgByID port [.fipDissociate fipID]
    | .notFound => processPortAfterFip env sgByID port [.fipDissociate fipID]
    | _ => (sgByID, [.fipDissociate fipID], false)
  | none => processPortAfterFip env sgByID port []

/-- A worker consuming its share of the ports channel, threading the
shared SG cache and accumulating the deleted count and call trace. -/
def deletePortsWorkerRun (env : PortsEnv) :
    List SecGroup → List Port → Nat × List PortEvent
  | _, [] => (0, [])
  | sgByID, port :: rest =>
    let res := processPort env sgByID port
    let r := deletePortsWorkerRun env res.1 rest
    ((if res.2.2 then r.1 + 1 else r.1), res.2.1 ++ r.2)

lemma sgFoldStep_cache_subset (env : PortsEnv) (acc : List SecGroup × List PortEvent)
    (gid : String) : (sgFoldStep env acc gid).1 ⊆ acc.1 := by
  unfold sgFoldStep
  cases hf : acc.1.find? (fun g => g.id == gid) with
  | none => exact fun x hx => hx
  | some g =>
    dsimp only
    split
    · cases env.sgDelete gid <;> dsimp only <;>
        first
          | exact fun x hx => List.mem_of_mem_filter hx
          | exact fun x hx => hx
    · exact fun x hx => hx

lemma sgFoldStep_events (env : PortsEnv) (acc : List SecGroup × List PortEvent)
    (gid : String) :
    (sgFoldStep env acc gid).2 = acc.2
      ∨ ((sgFoldStep env acc gid).2 = acc.2 ++ [.sgDelete gid]
          ∧ ∃ g ∈ acc.1, g.id = gid ∧ matchesCloudProviderSGName g.name = true) := by
  unfold sgFoldStep
  cases hf : acc.1.find? (fun g => g.id == gid) with
  | none => exact Or.inl rfl
  | some g =>
    dsimp only
    by_cases hm : matchesCloudProviderSGName g.name = true
    · rw [if_pos hm]
      have hmem : g ∈ acc.1 := List.mem_of_find?_eq_some hf
      have hid : g.id = gid := by
        have := List.find?_some hf
        simpa using this
      refine Or.inr ?_
      cases env.sgDelete gid <;> exact ⟨rfl, g, hmem, hid, hm⟩
    · rw [if_neg hm]
      exact Or.inl rfl

lemma sgFold_sgDelete_origin (env : PortsEnv) (gids : List String) :
    ∀ (acc : List SecGroup × List PortEvent) (gid : String),
      PortEvent.sgDelete gid ∈ (gids.foldl (sgFoldStep env) acc).2 →
      PortEvent.sgDelete gid ∈ acc.2
        ∨ ∃ g ∈ acc.1, g.id = gid ∧ matchesCloudProviderSGName g.name = true := by
  induction gids with
  | nil => exact fun acc gid h => Or.inl h
  | cons g0 rest ih =>
    intro acc gid h
    rw [List.foldl_cons] at h
    rcases ih (sgFoldStep env acc g0) gid h with h' | ⟨g, hg, hgid, hgm⟩
    · rcases sgFoldStep_events env acc g0 with he | ⟨he, g, hg, hgid, hgm⟩
      · rw [he] at h'
        exact Or.inl h'
      · rw [he] at h'
        rcases List.mem_append.mp h' with h'' | h''
        · exact Or.inl h''
        · simp only [List.mem_singleton, PortEvent.sgDelete.injEq] at h''
          subst h''
          exact Or.inr ⟨g, hg, hgid, hgm⟩
    · exact Or.inr ⟨g, sgFoldStep_cache_subset env acc g0 hg, hgid, hgm⟩

lemma sgFold_cache_subset (env : PortsEnv) (gids : List String) :
    ∀ acc : List SecGroup × List PortEvent,
      (gids.foldl (sgFoldStep env) acc).1 ⊆ acc.1 := by
  induction gids with
  | nil => exact fun acc x hx => hx
  | cons g0 rest ih =>
    intro acc x hx
    rw [List.foldl_cons] at hx
    exact sgFoldStep_cache_subset env acc g0 (ih (sgFoldStep env acc g0) hx)

lemma processPortAfterFip_sgDelete_origin (env : PortsEnv) (sgByID : List SecGroup)
    (port : Port) (evs0 : List PortEvent) (gid : String)
    (h0 : PortEvent.sgDelete gid ∉ evs0)
    (h : PortEvent.sgDelete gid ∈ (processPortAfterFip env sgByID port evs0).2.1) :
    ∃ g ∈ sgByID, g.id = gid ∧ matchesCloudProviderSGName g.name = true := by
  unfold processPortAfterFip at h
  have hfold := sgFold_sgDelete_origin env port.securityGroups
    (sgByID, evs0 ++ [.portClearSGs port.id]) gid
  have hbase : PortEvent.sgDelete gid ∉ evs0 ++ [PortEvent.portClearSGs port.id] := by
    intro hmem
    rcases List.mem_append.mp hmem with hmem | hmem
    · exact h0 hmem
    · simp at hmem
  cases hpd : env.portDelete port.id with
  | ok =>
    rw [hpd] at h
    dsimp only at h
    rcases List.mem_append.mp h with h' | h'
    · rcases hfold h' with h'' | h''
      · exact absurd h'' hbase
      · exact h''
    · simp at h'
  | notFound =>
    rw [hpd] at h
    dsimp only at h
    rcases List.mem_append.mp h with h' | h'
    · rcases List.mem_append.mp h' with h'' | h''
      · rcases hfold h'' with h3 | h3
        · exact absurd h3 hbase
        · exact h3
      · simp at h''
    · simp at h'
  | conflict =>
    rw [hpd] at h
    dsimp only at h
    rcases List.mem_append.mp h with h' | h'
    · rcases List.mem_append.mp h' with h'' | h''
      · rcases hfold h'' with h3 | h3
        · exact absurd h3 hbase
        · exact h3
      · simp at h''
    · simp at h'
  | otherError =>
    rw [hpd] at h
    dsimp only at h
    rcases List.mem_append.mp h with h' | h'
    · rcases List.mem_append.mp h' with h'' | h''
      · rcases hfold h'' with h3 | h3
        · exact absurd h3 hbase
        · exact h3
      · simp at h''
    · simp at h'

lemma processPort_sgDelete_origin (env : PortsEnv) (sgByID : List SecGroup)
    (port : Port) (gid : String)
    (h : PortEvent.sgDelete gid ∈ (processPort env sgByID port).2.1) :
    ∃ g ∈ sgByID, g.id = gid ∧ matchesCloudProviderSGName g.name = true := by
  unfold processPort at h
  cases hfip : env.fipByPort.lookup port.id with
  | none =>
    rw [hfip] at h
    dsimp only at h
    exact processPortAfterFip_sgDelete_origin env sgByID port [] gid (by simp) h
  | some fipID =>
    rw [hfip] at h
    dsimp only at h
    cases hup : env.fipUpdate fipID with
    | ok =>
      rw [hup] at h
      dsimp only at h
      exact processPortAfterFip_sgDelete_origin env sgByID port
        [.fipDissociate fipID] gid (by simp) h
    | notFound =>
      rw [hup] at h
      dsimp only at h
      exact processPortAfterFip_sgDelete_origin env sgByID port
        [.fipDissociate fipID] gid (by simp) h
    | conflict =>
      rw [hup] at h
      dsimp only at h
      simp at h
    | otherError =>
      rw [hup] at h
      dsimp only at h
      simp at h

lemma processPort_cache_subset (env : PortsEnv) (sgByID : List SecGroup) (port : Port) :
    (processPort env sgByID port).1 ⊆ sgByID := by
  unfold processPort
  have hafter : ∀ evs0, (processPortAfterFip env sgByID port evs0).1 ⊆ sgByID := by
    intro evs0
    unfold processPortAfterFip
    cases env.portDelete port.id <;> dsimp only <;>
      exact sgFold_cache_subset env port.securityGroups _
  cases env.fipByPort.lookup port.id with
  | none => dsimp only; exact hafter []
  | some fipID =>
    dsimp only
    cases env.fipUpdate fipID with
    | ok => dsimp only; exact hafter _
    | notFound => dsimp only; exact hafter _
    | conflict => dsimp only; exact fun x hx => hx
    | otherError => dsimp only; exact fun x hx => hx

/-- C6: in the ports worker, a security-group Delete call is issued only
for a group found in the prefetched cache whose name matches the managed
load-balancer security-group pattern; consequently any attached group
without a matching name is never deleted (it is only detached through the
port update that clears the port's security-group list). -/
theorem deletePortsWorker_sg_delete_only_managed (env : PortsEnv)
    (sgByID : List SecGroup) (ports : List Port) (gid : String) :
    (PortEvent.sgDelete gid ∈ (deletePortsWorkerRun env sgByID ports).2 →
      ∃ g ∈ sgByID, g.id = gid ∧ matchesCloudProviderSGName g.name = true)
    ∧ ((∀ g ∈ sgByID, g.id = gid → matchesCloudProviderSGName g.name = false) →
        PortEvent.sgDelete gid ∉ (deletePortsWorkerRun env sgByID ports).2) := by
  have main : ∀ (ps : List Port) (cache : List SecGroup),
      cache ⊆ sgByID →
      PortEvent.sgDelete gid ∈ (deletePortsWorkerRun env cache ps).2 →
      ∃ g ∈ sgByID, g.id = gid ∧ matchesCloudProviderSGName g.name = true := by
    intro ps
    induction ps with
    | nil =>
      intro cache _ h
      rw [deletePortsWorkerRun] at h
      cases h
    | cons port rest ih =>
      intro cache hsub h
      rw [deletePortsWorkerRun] at h
      dsimp only at h
      rcases List.mem_append.mp h with h' | h'
      · obtain ⟨g, hg, hgid, hgm⟩ := processPort_sgDelete_origin env cache port gid h'
        exact ⟨g, hsub hg, hgid, hgm⟩
      · exact ih (processPort env cache port).1
          (fun x hx => hsub (processPort_cache_subset env cache port hx)) h'
  constructor
  · exact main ports sgByID (fun x hx => hx)
  · intro hnone h
    obtain ⟨g, hg, hgid, hgm⟩ := main ports sgByID (fun x hx => hx) h
    rw [hnone g hg hgid] at hgm
    cases hgm

/-- C6 witness environment: one port with one attached managed security
group whose name matches the pattern. -/
def portsEnvManaged : PortsEnv :=
  { fipByPort := [],
    fipUpdate := fun _ => .ok,
    sgDelete := fun _ => .ok,
    portDelete := fun _ => .ok }

/-- Witness for C6: the worker does delete the managed group (the event
is emitted), and the theorem recovers from that event a cached group with
a pattern-matching name; a non-matching group is never deleted. -/
theorem deletePortsWorker_sg_delete_only_managed_witness :
    PortEvent.sgDelete "g1" ∈ (deletePortsWorkerRun portsEnvManaged
        [⟨"g1", "lb-sg-01234567-89ab-cdef-0123-456789abcdef"⟩] [⟨"p1", ["g1"]⟩]).2
    ∧ (∃ g ∈ [(⟨"g1", "lb-sg-01234567-89ab-cdef-0123-456789abcdef"⟩ : SecGroup)],
        g.id = "g1" ∧ matchesCloudProviderSGName g.name = true)
    ∧ PortEvent.sgDelete "g9" ∉ (deletePortsWorkerRun portsEnvManaged
        [⟨"g9", "default"⟩] [⟨"p2", ["g9"]⟩]).2 :=
  ⟨by decide,
   (deletePortsWorker_sg_delete_only_managed portsEnvManaged
      [⟨"g1", "lb-sg-01234567-89ab-cdef-0123-456789abcdef"⟩] [⟨"p1", ["g1"]⟩] "g1").1
     (by decide),
   (deletePortsWorker_sg_delete_only_managed portsEnvManaged
      [⟨"g9", "default"⟩] [⟨"p2", ["g9"]⟩] "g9").2 (by decide)⟩

/-! ## The orchestrator (`Run`, source lines 91-149)

`Run` launches one goroutine per entry of `deleteFuncs`, performs one
blocking receive on the unbuffered completion channel per task (the
fan-in barrier), then calls `deleteRouterRunner` and, only when that
returned nil, `untagRunner`. The embedding is a labelled transition
system: a `taskDone` transition is the rendezvous of one task's
completion send with one barrier receive; `startRouter` is the main
goroutine passing the barrier (possible only once every task has
delivered its signal); `routerOk`/`routerFail` are `deleteRouterRunner`
returning nil or an error; `untag` marks `untagRunner` starting. -/

/-- The keys of the `deleteFuncs` map in `Run`. -/
def deleteFuncNames : List String :=
  ["cleanVIPsPorts", "deleteServers", "deleteServerGroups", "deleteTrunks",
   "deleteLoadBalancers", "deletePorts", "deleteSecurityGroups",
   "clearRouterInterfaces", "deleteSubnets", "deleteNetworks",
   "deleteContainers", "deleteVolumes", "deleteShares",
   "deleteVolumeSnapshots", "deleteFloatingIPs", "deleteImages"]

/-- Observable events of a `Run` execution. -/
inductive RunEvent where
  | taskDone (name : String)
  | routerDelete
  | untag
  deriving DecidableEq, Repr

inductive RunPhase where
  | parallel
  | router
  | untagging
  | finished
  | aborted
  deriving DecidableEq, Repr

/-- A state of the orchestrator: tasks whose completion signal has not
yet been received, the main goroutine's phase, and the event trace. -/
structure RunState where
  pending : List String
  phase : RunPhase
  trace : List RunEvent
  deriving DecidableEq, Repr

def runInit : RunState := ⟨deleteFuncNames, .parallel, []⟩

/-- One transition of the orchestrator. -/
inductive RunStep : RunState → RunState → Prop where
  | taskDone (s : RunState) (name : String) (hmem : name ∈ s.pending)
      (hphase : s.phase = .parallel) :
      RunStep s ⟨s.pending.erase name, .parallel, s.trace ++ [.taskDone name]⟩
  | startRouter (s : RunState) (hdone : s.pending = []) (hphase : s.phase = .parallel) :
      RunStep s ⟨[], .router, s.trace ++ [.routerDelete]⟩
  | routerOk (s : RunState) (hphase : s.phase = .router) :
      RunStep s ⟨[], .untagging, s.trace ++ [.untag]⟩
  | routerFail (s : RunState) (hphase : s.phase = .router) :
      RunStep s ⟨[], .aborted, s.trace⟩
  | untagDone (s : RunState) (hphase : s.phase = .untagging) :
      RunStep s ⟨[], .finished, s.trace⟩

/-- States reachable from the initial state of `Run`. -/
inductive RunReachable : RunState → Prop where
  | init : RunReachable runInit
  | step {s t : RunState} : RunReachable s → RunStep s t → RunReachable t

/-- Shape invariant of every reachable orchestrator state. -/
def runShape (s : RunState) : Prop :=
  ∃ done : List String,
    (done ++ s.pending).Perm deleteFuncNames ∧
    match s.phase with
    | .parallel => s.trace = done.map RunEvent.taskDone
    | .router => s.pending = []
        ∧ s.trace = done.map RunEvent.taskDone ++ [.routerDelete]
    | .untagging => s.pending = []
        ∧ s.trace = done.map RunEvent.taskDone ++ [.routerDelete, .untag]
    | .finished => s.pending = []
        ∧ s.trace = done.map RunEvent.taskDone ++ [.routerDelete, .untag]
    | .aborted => s.pending = []
        ∧ s.trace = done.map RunEvent.taskDone ++ [.routerDelete]

lemma runShape_invariant {s : RunState} (h : RunReachable s) : runShape s := by
  induction h with
  | init =>
    exact ⟨[], List.Perm.refl deleteFuncNames, rfl⟩
  | step hreach hstep ih =>
    rename_i s t
    cases hstep with
    | taskDone name hmem hphase =>
      obtain ⟨done, hperm, hmatch⟩ := ih
      rw [hphase] at hmatch
      dsimp only at hmatch
      refine ⟨done ++ [name], ?_, ?_⟩
      · dsimp only
        have h1 : (s.pending).Perm (name :: s.pending.erase name) :=
          List.perm_cons_erase hmem
        have hassoc : (done ++ [name]) ++ s.pending.erase name
            = done ++ (name :: s.pending.erase name) := by
          rw [List.append_assoc]
          rfl
        rw [hassoc]
        exact (List.Perm.append_left done h1.symm).trans hperm
      · dsimp only
        rw [hmatch, List.map_append]
        rfl
    | startRouter hdone hphase =>
      obtain ⟨done, hperm, hmatch⟩ := ih
      rw [hphase] at hmatch
      dsimp only at hmatch
      refine ⟨done, ?_, rfl, ?_⟩
      · dsimp only
        rw [List.append_nil]
        rw [hdone, List.append_nil] at hperm
        exact hperm
      · dsimp only
        rw [hmatch]
    | routerOk hphase =>
      obtain ⟨done, hperm, hmatch⟩ := ih
      rw [hphase] at hmatch
      dsimp only at hmatch
      obtain ⟨hpend, htrace⟩ := hmatch
      rw [hpend, List.append_nil] at hperm
      refine ⟨done, by dsimp only; rw [List.append_nil]; exact hperm, rfl, ?_⟩
      dsimp only
      rw [htrace, List.append_assoc]
      rfl
    | routerFail hphase =>
      obtain ⟨done, hperm, hmatch⟩ := ih
      rw [hphase] at hmatch
      dsimp only at hmatch
      obtain ⟨hpend, htrace⟩ := hmatch
      rw [hpend, List.append_nil] at hperm
      exact ⟨done, by dsimp only; rw [List.append_nil]; exact hperm, rfl, htrace⟩
    | untagDone hphase =>
      obtain ⟨done, hperm, hmatch⟩ := ih
      rw [hphase] at hmatch
      dsimp only at hmatch
      obtain ⟨hpend, htrace⟩ := hmatch
      rw [hpend, List.append_nil] at hperm
      exact ⟨done, by dsimp only; rw [List.append_nil]; exact hperm, rfl, htrace⟩

lemma taskDone_prefix_no_event (done : List String) (i : Nat) (e : RunEvent)
    (h : (done.map RunEvent.taskDone)[i]? = some e) :
    ∃ name, done[i]? = some name ∧ e = .taskDone name := by
  rw [List.getElem?_map] at h
  cases hd : done[i]? with
  | none => rw [hd] at h; cases h
  | some name =>
    rw [hd] at h
    exact ⟨name, rfl, (Option.some.inj h).symm⟩

lemma suffix_event_position (done : List String) (suffix : List RunEvent) (i : Nat)
    (e : RunEvent) (he : ∀ name, e ≠ .taskDone name)
    (h : (done.map RunEvent.taskDone ++ suffix)[i]? = some e) :
    done.length ≤ i ∧ suffix[i - done.length]? = some e := by
  rcases Nat.lt_or_ge i done.length with hlt | hge
  · exfalso
    rw [List.getElem?_append_left (by simpa using hlt)] at h
    obtain ⟨name, _, hname⟩ := taskDone_prefix_no_event done i e h
    exact he name hname
  · refine ⟨hge, ?_⟩
    rw [List.getElem?_append_right (by simpa using hge)] at h
    simpa using h

lemma all_names_indexed_before (done : List String) (suffix : List RunEvent)
    (hperm : done.Perm deleteFuncNames) :
    ∀ name ∈ deleteFuncNames, ∃ j < done.length,
      (done.map RunEvent.taskDone ++ suffix)[j]? = some (.taskDone name) := by
  intro name hname
  have hmem : name ∈ done := hperm.mem_iff.mpr hname
  obtain ⟨j, hj, hval⟩ := List.mem_iff_getElem.mp hmem
  refine ⟨j, hj, ?_⟩
  rw [List.getElem?_append_left (by simpa using hj), List.getElem?_map,
    List.getElem?_eq_getElem hj, hval]
  rfl

lemma trace_routerDelete_all_before (done : List String) (suffix : List RunEvent)
    (hperm : done.Perm deleteFuncNames) (i : Nat)
    (hi : (done.map RunEvent.taskDone ++ suffix)[i]? = some .routerDelete) :
    ∀ name ∈ deleteFuncNames, ∃ j < i,
      (done.map RunEvent.taskDone ++ suffix)[j]? = some (.taskDone name) := by
  obtain ⟨hge, _⟩ := suffix_event_position done suffix i _ (fun name h => by cases h) hi
  intro name hname
  obtain ⟨j, hj, hval⟩ := all_names_indexed_before done suffix hperm name hname
  exact ⟨j, Nat.lt_of_lt_of_le hj hge, hval⟩

lemma trace_no_untag_router_only (done : List String) (k : Nat)
    (hk : (done.map RunEvent.taskDone ++ [RunEvent.routerDelete])[k]? = some .untag) :
    False := by
  obtain ⟨hge, hsuf⟩ := suffix_event_position done _ k _ (fun name h => by cases h) hk
  rcases hcase : k - done.length with _ | n
  · rw [hcase] at hsuf; simp at hsuf
  · rw [hcase] at hsuf; simp at hsuf

lemma trace_untag_after_routerDelete (done : List String) (k : Nat)
    (hk : (done.map RunEvent.taskDone
        ++ [RunEvent.routerDelete, RunEvent.untag])[k]? = some .untag) :
    ∃ i < k, (done.map RunEvent.taskDone
        ++ [RunEvent.routerDelete, RunEvent.untag])[i]? = some .routerDelete := by
  obtain ⟨hge, hsuf⟩ := suffix_event_position done _ k _ (fun name h => by cases h) hk
  rcases hcase : k - done.length with _ | n
  · rw [hcase] at hsuf; simp at hsuf
  · refine ⟨done.length, by omega, ?_⟩
    rw [List.getElem?_append_right (by simp), List.length_map, Nat.sub_self]
    rfl

lemma untag_not_mem_router_trace (done : List String) :
    RunEvent.untag ∉ done.map RunEvent.taskDone ++ [RunEvent.routerDelete] := by
  intro hmem
  rcases List.mem_append.mp hmem with hmem | hmem
  · rw [List.mem_map] at hmem
    obtain ⟨name, _, hname⟩ := hmem
    cases hname
  · simp at hmem

/-- C2: in every reachable state of the orchestrator, (i) when the
router-deletion phase appears in the trace, every one of the sixteen
parallel deletion tasks has already delivered its completion signal at an
earlier trace position; (ii) the untagging phase appears only after the
router-deletion phase; (iii) when the router phase ended with an error
(aborted state) the untagging phase never appears. -/
theorem run_orders_router_and_untag (s : RunState) (h : RunReachable s) :
    (∀ i : Nat, s.trace[i]? = some .routerDelete →
      ∀ name ∈ deleteFuncNames, ∃ j < i, s.trace[j]? = some (.taskDone name))
    ∧ (∀ k : Nat, s.trace[k]? = some .untag →
        ∃ i < k, s.trace[i]? = some .routerDelete)
    ∧ (s.phase = .aborted → RunEvent.untag ∉ s.trace) := by
  obtain ⟨done, hperm, hmatch⟩ := runShape_invariant h
  cases hphase : s.phase with
  | parallel =>
    try simp only [hphase] at hmatch
    try dsimp only at hmatch
    refine ⟨?_, ?_, ?_⟩
    · intro i hi
      rw [hmatch] at hi
      obtain ⟨name, _, hname⟩ := taskDone_prefix_no_event done i _ hi
      cases hname
    · intro k hk
      rw [hmatch] at hk
      obtain ⟨name, _, hname⟩ := taskDone_prefix_no_event done k _ hk
      cases hname
    · intro hab
      try rw [hphase] at hab
      exact absurd hab (by decide)
  | router =>
    try simp only [hphase] at hmatch
    try dsimp only at hmatch
    obtain ⟨hpend, htrace⟩ := hmatch
    rw [hpend, List.append_nil] at hperm
    refine ⟨?_, ?_, ?_⟩
    · intro i hi
      rw [htrace] at hi ⊢
      exact trace_routerDelete_all_before done _ hperm i hi
    · intro k hk
      rw [htrace] at hk
      exact absurd (trace_no_untag_router_only done k hk) not_false
    · intro hab
      try rw [hphase] at hab
      exact absurd hab (by decide)
  | untagging =>
    try simp only [hphase] at hmatch
    try dsimp only at hmatch
    obtain ⟨hpend, htrace⟩ := hmatch
    rw [hpend, List.append_nil] at hperm
    refine ⟨?_, ?_, ?_⟩
    · intro i hi
      rw [htrace] at hi ⊢
      exact trace_routerDelete_all_before done _ hperm i hi
    · intro k hk
      rw [htrace] at hk ⊢
      exact trace_untag_after_routerDelete done k hk
    · intro hab
      try rw [hphase] at hab
      exact absurd hab (by decide)
  | finished =>
    try simp only [hphase] at hmatch
    try dsimp only at hmatch
    obtain ⟨hpend, htrace⟩ := hmatch
    rw [hpend, List.append_nil] at hperm
    refine ⟨?_, ?_, ?_⟩
    · intro i hi
      rw [htrace] at hi ⊢
      exact trace_routerDelete_all_before done _ hperm i hi
    · intro k hk
      rw [htrace] at hk ⊢
      exact trace_untag_after_routerDelete done k hk
    · intro hab
      try rw [hphase] at hab
      exact absurd hab (by decide)
  | aborted =>
    try simp only [hphase] at hmatch
    try dsimp only at hmatch
    obtain ⟨hpend, htrace⟩ := hmatch
    rw [hpend, List.append_nil] at hperm
    refine ⟨?_, ?_, ?_⟩
    · intro i hi
      rw [htrace] at hi ⊢
      exact trace_routerDelete_all_before done _ hperm i hi
    · intro k hk
      rw [htrace] at hk
      exact absurd (trace_no_untag_router_only done k hk) not_false
    · intro _
      rw [htrace]
      exact untag_not_mem_router_trace done

lemma runReachable_consume (l : List String) :
    ∀ tr : List RunEvent,
      RunReachable ⟨l, .parallel, tr⟩ →
      RunReachable ⟨[], .parallel, tr ++ l.map RunEvent.taskDone⟩ := by
  induction l with
  | nil =>
    intro tr h
    simpa using h
  | cons a rest ih =>
    intro tr h
    have h1 : RunStep ⟨a :: rest, .parallel, tr⟩
        ⟨(a :: rest).erase a, .parallel, tr ++ [.taskDone a]⟩ :=
      RunStep.taskDone ⟨a :: rest, .parallel, tr⟩ a (List.mem_cons_self _ _) rfl
    rw [List.erase_cons_head] at h1
    have h2 := ih (tr ++ [.taskDone a]) (RunReachable.step h h1)
    simpa [List.append_assoc] using h2

/-- The state after a complete successful run. -/
def runFinalState : RunState :=
  ⟨[], .finished, deleteFuncNames.map RunEvent.taskDone ++ [.routerDelete, .untag]⟩

lemma runFinalState_reachable : RunReachable runFinalState := by
  have h1 : RunReachable ⟨[], .parallel, [] ++ deleteFuncNames.map RunEvent.taskDone⟩ :=
    runReachable_consume deleteFuncNames [] RunReachable.init
  rw [List.nil_append] at h1
  have h2 := RunReachable.step h1
    (RunStep.startRouter ⟨[], .parallel, deleteFuncNames.map RunEvent.taskDone⟩ rfl rfl)
  have h3 := RunReachable.step h2 (RunStep.routerOk _ rfl)
  have h4 := RunReachable.step h3 (RunStep.untagDone _ rfl)
  simpa [runFinalState, List.append_assoc] using h4

/-- Witness for C2 at the concrete completed run: position 16 of its
trace is the router-deletion start, and the theorem places the
`deleteServers` completion signal strictly before it. -/
theorem run_orders_router_and_untag_witness :
    ∃ j < 16, runFinalState.trace[j]? = some (.taskDone "deleteServers") :=
  (run_orders_router_and_untag runFinalState runFinalState_reachable).1 16 (by decide)
    "deleteServers" (by decide)

end OpenStackDestroy
